import Mathlib

/-!
Verification of the gitchamber per-repository cache worker
(`src/worker.ts` and `src/utils.ts`).

JavaScript strings are embedded as lists of characters (`JStr`): every
operation the worker performs on strings (split, join, indexOf, slice,
substring, padStart, trim, toLowerCase) is a sequence operation, so the
embedding is faithful while staying provable.  Machine numbers are `Int`
(timestamps, line indices) or `Nat` (lengths); all values handled by the
worker are far below 2^53, so JavaScript number arithmetic on them is
exact integer arithmetic.
-/

/-- Embedding of a JavaScript string: its sequence of characters. -/
abbrev JStr := List Char

/-- Turn a Lean string literal into the embedded form. -/
def jstr (s : String) : JStr := s.data

/-- Newline character used by the worker for splitting and joining. -/
def nlChar : Char := Char.ofNat 10

/-- Helper for `splitOnChar`: first piece and remaining pieces. -/
def splitOnCharAux (sep : Char) : JStr → JStr × List JStr
  | [] => ([], [])
  | c :: rest =>
    let p := splitOnCharAux sep rest
    if c = sep then ([], p.1 :: p.2) else (c :: p.1, p.2)

/-- `s.split(sep)` for a one-character separator, JS semantics:
splitting the empty string yields `[""]`, a trailing separator yields a
trailing empty piece. -/
def splitOnChar (sep : Char) (s : JStr) : List JStr :=
  (splitOnCharAux sep s).1 :: (splitOnCharAux sep s).2

theorem splitOnChar_ne_nil (sep : Char) (s : JStr) : splitOnChar sep s ≠ [] := by
  simp [splitOnChar]

theorem splitOnChar_nil (sep : Char) : splitOnChar sep [] = [[]] := rfl

theorem splitOnChar_cons_self (sep : Char) (rest : JStr) :
    splitOnChar sep (sep :: rest) = [] :: splitOnChar sep rest := by
  simp [splitOnChar, splitOnCharAux]

theorem splitOnChar_cons_ne (sep c : Char) (rest : JStr) (h : c ≠ sep) :
    splitOnChar sep (c :: rest) =
      (c :: (splitOnChar sep rest).headD []) :: (splitOnChar sep rest).tail := by
  simp [splitOnChar, splitOnCharAux, h]

/-- `pieces.join(sep)` for a one-character separator
(JS `Array.prototype.join`). -/
def joinWith (sep : Char) : List JStr → JStr
  | [] => []
  | [x] => x
  | x :: y :: t => x ++ sep :: joinWith sep (y :: t)

/-- Joining a one-character-separated split recovers the string:
`s.split(c).join(c) === s`. -/
theorem joinWith_splitOnChar (sep : Char) (s : JStr) :
    joinWith sep (splitOnChar sep s) = s := by
  induction s with
  | nil => rfl
  | cons c rest ih =>
    by_cases hc : c = sep
    · rw [hc, splitOnChar_cons_self]
      have hne := splitOnChar_ne_nil sep rest
      cases h : splitOnChar sep rest with
      | nil => exact absurd h hne
      | cons hd tl =>
        rw [h] at ih
        simpa [joinWith] using ih
    · rw [splitOnChar_cons_ne sep c rest hc]
      cases h : splitOnChar sep rest with
      | nil => exact absurd h (splitOnChar_ne_nil sep rest)
      | cons hd tl =>
        rw [h] at ih
        cases tl with
        | nil => simpa [joinWith] using ih
        | cons y t => simpa [joinWith] using ih

/-- The number of pieces only depends on the number of separators. -/
theorem splitOnChar_length (sep : Char) (s : JStr) :
    (splitOnChar sep s).length = (s.count sep) + 1 := by
  induction s with
  | nil => simp [splitOnChar_nil]
  | cons c rest ih =>
    by_cases hc : c = sep
    · rw [hc, splitOnChar_cons_self]
      simp [ih, List.count_cons]
    · rw [splitOnChar_cons_ne sep c rest hc]
      have hne := splitOnChar_ne_nil sep rest
      cases h : splitOnChar sep rest with
      | nil => exact absurd h hne
      | cons hd tl =>
        rw [h] at ih
        simp at ih
        simp [List.count_cons, hc, ih]

/-- Helper for `decRepr`, structurally recursive on a fuel argument so
that the kernel can evaluate it; `fuel > n` is always enough. -/
def decReprAux : Nat → Nat → JStr
  | 0, _ => []
  | fuel + 1, n =>
    if n < 10 then [Char.ofNat (48 + n)]
    else decReprAux fuel (n / 10) ++ [Char.ofNat (48 + n % 10)]

/-- Decimal digit rendering of a natural number, the behaviour of
JavaScript `Number.prototype.toString()` on non-negative integers. -/
def decRepr (n : Nat) : JStr := decReprAux (n + 1) n

theorem decReprAux_fuel_irrel :
    ∀ (f1 f2 n : Nat), n < f1 → n < f2 → decReprAux f1 n = decReprAux f2 n := by
  intro f1
  induction f1 with
  | zero => intro f2 n h1 _; omega
  | succ f ih =>
    intro f2 n h1 h2
    cases f2 with
    | zero => omega
    | succ g =>
      simp only [decReprAux]
      by_cases h : n < 10
      · simp [h]
      · have hdiv : n / 10 < n := Nat.div_lt_self (by omega) (by omega)
        simp only [h, if_false]
        rw [ih g (n / 10) (by omega) (by omega)]

theorem decRepr_lt {n : Nat} (h : n < 10) : decRepr n = [Char.ofNat (48 + n)] := by
  simp [decRepr, decReprAux, h]

theorem decRepr_ge {n : Nat} (h : ¬ n < 10) :
    decRepr n = decRepr (n / 10) ++ [Char.ofNat (48 + n % 10)] := by
  have hdiv : n / 10 < n := Nat.div_lt_self (by omega) (by omega)
  have h1 : decRepr n = decReprAux n (n / 10) ++ [Char.ofNat (48 + n % 10)] := by
    simp only [decRepr, decReprAux, h, if_false]
  rw [h1, decReprAux_fuel_irrel n (n / 10 + 1) (n / 10) (by omega) (by omega)]
  rfl

theorem decRepr_length_pos (n : Nat) : 0 < (decRepr n).length := by
  by_cases h : n < 10
  · simp [decRepr_lt h]
  · simp [decRepr_ge h]

/-- More digits are never needed for a smaller number. -/
theorem decRepr_length_mono {a b : Nat} (h : a ≤ b) :
    (decRepr a).length ≤ (decRepr b).length := by
  induction b using Nat.strong_induction_on generalizing a with
  | _ b ih =>
    by_cases hb : b < 10
    · have ha : a < 10 := lt_of_le_of_lt h hb
      rw [decRepr_lt ha, decRepr_lt hb]
      simp
    · by_cases ha : a < 10
      · rw [decRepr_lt ha, decRepr_ge hb]
        have := decRepr_length_pos (b / 10)
        simp
      · rw [decRepr_ge ha, decRepr_ge hb]
        have hdiv : a / 10 ≤ b / 10 := Nat.div_le_div_right h
        have hlt : b / 10 < b := Nat.div_lt_self (by omega) (by omega)
        have := ih (b / 10) hlt hdiv
        simp only [List.length_append, List.length_singleton]
        omega

/-- `Number.prototype.toString()` on an integer. -/
def intRepr (i : Int) : JStr :=
  if i < 0 then Char.ofNat 45 :: decRepr (-i).toNat else decRepr i.toNat

/-- `s.padStart(width, c)`: left-pad to `width`; a longer string is
returned unchanged. -/
def padStart (s : JStr) (width : Nat) (c : Char) : JStr :=
  List.replicate (width - s.length) c ++ s

theorem padStart_length (s : JStr) (width : Nat) (c : Char) :
    (padStart s width c).length = max width s.length := by
  simp [padStart]
  omega

/-- JS truthiness of an optional number: `undefined` and `0` are falsy. -/
def jsTruthyOpt : Option Int → Bool
  | none => false
  | some v => v != 0

/-- `Array.prototype.slice(start, stop)` where `start` is already a
non-negative index and `stop` may be negative (negative values count
from the end of the array). -/
def jsSlice (l : List α) (start : Nat) (stop : Int) : List α :=
  let len : Int := l.length
  let stopIdx : Int := if stop < 0 then max (len + stop) 0 else min stop len
  (l.take stopIdx.toNat).drop start

/-! ### `formatFileWithLines` (src/src/utils.ts, lines 105-172)

The source computes several intermediate values inline; they are named
here so that theorems can speak about them, with each definition the
exact expression from the source. -/

/-- Space character (the pad character of `padStart`). -/
def spaceChar : Char := Char.ofNat 32

/-- `MAX_FILE_LINES` from src/worker.ts line 29. -/
def MAX_FILE_LINES : Nat := 1000

/-- The truncation marker `[File truncated: N more lines]`. -/
def truncMsg (r : Int) : JStr :=
  jstr ("[File truncated: ") ++ intRepr r ++ jstr (" more lines]")

/-- `effectiveEndLine`: when no explicit range is given and the file has
more than `maxLines` lines, the end is forced to `maxLines`. -/
def effEndLine (startLine endLine : Option Int) (numLines maxLines : Nat) :
    Option Int :=
  if startLine = none ∧ endLine = none ∧ numLines > maxLines then
    some (maxLines : Int)
  else endLine

/-- `const start = startLine ? Math.max(0, startLine - 1) : 0`. -/
def startIdxOf (startLine : Option Int) : Nat :=
  if jsTruthyOpt startLine then (max 0 (startLine.getD 0 - 1)).toNat else 0

/-- `const end = effectiveEndLine ? Math.min(effectiveEndLine, lines.length) : lines.length`. -/
def endValOf (eff : Option Int) (numLines : Nat) : Int :=
  if jsTruthyOpt eff then min (eff.getD 0) (numLines : Int) else (numLines : Int)

/-- The `filteredLines` computation: slice only when a range is present. -/
def filteredLinesOf (lines : List JStr) (startLine eff : Option Int) :
    List JStr :=
  if startLine ≠ none ∨ eff ≠ none then
    jsSlice lines (startIdxOf startLine) (endValOf eff lines.length)
  else lines

/-- The `result` array built by `formatFileWithLines` before the final
`join("\n")`. -/
def formatFileParts (contents : JStr) (showLineNumbers : Bool)
    (startLine endLine : Option Int) (maxLines : Nat) : List JStr :=
  let lines := splitOnChar nlChar contents
  let eff := effEndLine startLine endLine lines.length maxLines
  let filteredLines := filteredLinesOf lines startLine eff
  let actualEnd : Int := endValOf eff lines.length
  let hasContentBelow : Bool := actualEnd < (lines.length : Int)
  let linesRemaining : Int :=
    if hasContentBelow then (lines.length : Int) - actualEnd else 0
  let shouldShowLN : Bool := showLineNumbers || startLine ≠ none || eff ≠ none
  if shouldShowLN then
    let startLineNumber : Int := if jsTruthyOpt startLine then startLine.getD 0 else 1
    let maxLineNumber : Int := startLineNumber + filteredLines.length - 1
    let padding : Nat := (intRepr maxLineNumber).length
    let formatted := filteredLines.enum.map fun p =>
      padStart (intRepr (startLineNumber + p.1)) padding spaceChar ++
        jstr ("  ") ++ p.2
    formatted ++
      (if !hasContentBelow then [jstr ("end of file")]
       else if linesRemaining > 0 then [truncMsg linesRemaining] else [])
  else
    filteredLines ++
      (if !hasContentBelow ∧ filteredLines.length > 0 then []
       else if linesRemaining > 0 then [nlChar :: truncMsg linesRemaining]
       else [])

/-- `formatFileWithLines`: the parts joined with `"\n"`. -/
def formatFileWithLines (contents : JStr) (showLineNumbers : Bool)
    (startLine endLine : Option Int) (maxLines : Nat) : JStr :=
  joinWith nlChar (formatFileParts contents showLineNumbers startLine endLine maxLines)

/-- A read with no options of a file of at most `maxLines` lines returns
the stored content unchanged (the raw branch adds no marker). -/
theorem formatFile_raw_id (contents : JStr)
    (h : (splitOnChar nlChar contents).length ≤ 1000) :
    formatFileWithLines contents false none none 1000 = contents := by
  have hgt : ¬ (splitOnChar nlChar contents).length > 1000 := by omega
  have hpos : 0 < (splitOnChar nlChar contents).length :=
    List.length_pos.mpr (splitOnChar_ne_nil nlChar contents)
  have heff : effEndLine none none (splitOnChar nlChar contents).length 1000 = none := by
    simp [effEndLine, hgt]
  have hfl : filteredLinesOf (splitOnChar nlChar contents) none none
      = splitOnChar nlChar contents := by
    simp [filteredLinesOf]
  have hend : endValOf none (splitOnChar nlChar contents).length
      = ((splitOnChar nlChar contents).length : Int) := by
    simp [endValOf, jsTruthyOpt]
  simp only [formatFileWithLines, formatFileParts, heff, hfl, hend]
  simp [hpos, joinWith_splitOnChar]

theorem intRepr_nonneg {i : Int} (h : 0 ≤ i) : intRepr i = decRepr i.toNat := by
  simp [intRepr, not_lt.mpr h]

/-- A read with no options of a file of more than `maxLines` lines is
truncated at 1000 numbered lines followed by the truncation marker. -/
theorem formatFile_trunc (contents : JStr)
    (h : (splitOnChar nlChar contents).length > 1000) :
    formatFileParts contents false none none 1000 =
      ((splitOnChar nlChar contents).take 1000).enum.map (fun p =>
        padStart (intRepr (1 + (p.1 : Int))) 4 spaceChar ++ jstr ("  ") ++ p.2) ++
      [truncMsg (((splitOnChar nlChar contents).length : Int) - 1000)] := by
  have heff : effEndLine none none (splitOnChar nlChar contents).length 1000
      = some 1000 := by
    simp [effEndLine, h]
  have hmin : min (1000 : Int) ((splitOnChar nlChar contents).length : Int) = 1000 :=
    min_eq_left (by exact_mod_cast Nat.le_of_lt h)
  have hend : endValOf (some 1000) (splitOnChar nlChar contents).length
      = (1000 : Int) := by
    simp [endValOf, jsTruthyOpt, hmin]
  have hfl : filteredLinesOf (splitOnChar nlChar contents) none (some 1000)
      = (splitOnChar nlChar contents).take 1000 := by
    simp [filteredLinesOf, jsSlice, startIdxOf, jsTruthyOpt, hend, hmin]
  have hlen : ((splitOnChar nlChar contents).take 1000).length = 1000 := by
    simp [List.length_take]
    omega
  have hbelow : ((1000 : Int) < ((splitOnChar nlChar contents).length : Int)) := by
    exact_mod_cast h
  have hrem : (0 : Int) < ((splitOnChar nlChar contents).length : Int) - 1000 := by
    omega
  have hpad4 : (intRepr (1 + ((1000 : Nat) : Int) - 1)).length = 4 := by
    have h1 : (1 + ((1000 : Nat) : Int) - 1) = 1000 := by norm_num
    rw [h1]
    decide
  have hp : (intRepr (1000 : Int)).length = 4 := by decide
  simp only [formatFileParts, heff, hfl, hend, hlen]
  simp [jsTruthyOpt, hbelow, hpad4, hp, hrem, not_lt.mpr (le_of_lt hbelow)]

/-- A line-numbered read of a whole file (no window, at most `maxLines`
lines): every line is prefixed with its padded number and the output ends
with the end-of-file marker. -/
theorem formatFile_numbered_full (contents : JStr)
    (h : (splitOnChar nlChar contents).length ≤ 1000) :
    formatFileParts contents true none none 1000 =
      (splitOnChar nlChar contents).enum.map (fun p =>
        padStart (intRepr (1 + (p.1 : Int)))
          (intRepr (((splitOnChar nlChar contents).length : Nat) : Int)).length
          spaceChar ++ jstr ("  ") ++ p.2) ++
      [jstr ("end of file")] := by
  have hgt : ¬ (splitOnChar nlChar contents).length > 1000 := by omega
  have heff : effEndLine none none (splitOnChar nlChar contents).length 1000
      = none := by
    simp [effEndLine, hgt]
  have hfl : filteredLinesOf (splitOnChar nlChar contents) none none
      = splitOnChar nlChar contents := by
    simp [filteredLinesOf]
  have hend : endValOf none (splitOnChar nlChar contents).length
      = ((splitOnChar nlChar contents).length : Int) := by
    simp [endValOf, jsTruthyOpt]
  have hmax : (1 : Int) + ((splitOnChar nlChar contents).length : Int) - 1
      = ((splitOnChar nlChar contents).length : Int) := by omega
  simp only [formatFileParts, heff, hfl, hend]
  simp [jsTruthyOpt, hmax]

/-- Within a numbered block the pad width is taken from the largest line
number, so every rendered number occupies exactly that width. -/
theorem numbered_width_exact {k n : Nat} (hk : k < n) :
    (padStart (intRepr (1 + (k : Int))) (intRepr ((n : Nat) : Int)).length
      spaceChar).length = (intRepr ((n : Nat) : Int)).length := by
  have h1 : intRepr (1 + (k : Int)) = decRepr (k + 1) := by
    rw [intRepr_nonneg (by omega)]
    congr 1
    omega
  have h2 : intRepr ((n : Nat) : Int) = decRepr n := by
    rw [intRepr_nonneg (by omega)]
    simp
  rw [h1, h2, padStart_length]
  have := decRepr_length_mono (show k + 1 ≤ n by omega)
  omega

/-! ### Glob signatures, cache metadata, freshness (src/unnamed/part_003)

`globToTableSuffix` (lines 127-134), the meta table keyed by
`lastFetched_<suffix>`, `ensureFresh` (lines 390-403) and the eviction
`alarm` (lines 405-448). -/

/-- `DEFAULT_GLOB` from src/unnamed/part_003 line 28. -/
def DEFAULT_GLOB : JStr := jstr ("**/{*.md,*.mdx,README*}")

/-- The regex class `[^a-zA-Z0-9]` from `globToTableSuffix`. -/
def isAsciiAlnum (c : Char) : Bool :=
  (48 ≤ c.toNat ∧ c.toNat ≤ 57) ∨ (65 ≤ c.toNat ∧ c.toNat ≤ 90) ∨
    (97 ≤ c.toNat ∧ c.toNat ≤ 122)

def underscoreChar : Char := Char.ofNat 95

/-- `globToTableSuffix`: `undefined`/empty map to `default`, the two
special patterns to fixed names, anything else has every
non-alphanumeric character replaced by `_` and is lower-cased. -/
def globToTableSuffix : Option JStr → JStr
  | none => jstr ("default")
  | some g =>
    if g = [] then jstr ("default")
    else if g = jstr ("**/*") then jstr ("all_files")
    else if g = DEFAULT_GLOB then jstr ("markdown_only")
    else (g.map fun c => if isAsciiAlnum c then c else underscoreChar).map
      Char.toLower

/-- The meta row key `lastFetched_<suffix>` for a glob. -/
def metaKeyFor (glob : Option JStr) : JStr :=
  jstr ("lastFetched_") ++ globToTableSuffix glob

/-- `SELECT val FROM meta WHERE key = ?` on the embedded meta table
(`key` is the primary key, so the first matching row is the row). -/
def metaLookup : List (JStr × Int) → JStr → Option Int
  | [], _ => none
  | kv :: rest, k => if kv.1 = k then some kv.2 else metaLookup rest k

/-- Outcome of `ensureFresh`: returning normally vs. throwing the
`NEEDS_REFRESH` error that the route handlers catch. -/
inductive FreshStatus
  | fresh
  | needsRefresh
deriving DecidableEq, Repr

/-- `CACHE_TTL_MS` default (6 hours). -/
def DEFAULT_TTL : Int := 21600000

/-- `ensureFresh` (src/unnamed/part_003 lines 390-403): the stored
`lastFetched` for the glob signature (0 when absent) is compared with
the TTL. -/
def ensureFresh (meta : List (JStr × Int)) (glob : Option JStr)
    (now ttl : Int) : FreshStatus :=
  let last := (metaLookup meta (metaKeyFor glob)).getD 0
  if now - last < ttl then .fresh else .needsRefresh

/-- One day in milliseconds (`24 * 60 * 60 * 1000`). -/
def DAY_MS : Int := 86400000

/-- Observable outcome of one `alarm()` wake-up: the surviving tables,
the surviving meta rows, and the next scheduled wake-up (none =
`deleteAlarm`). -/
structure AlarmResult where
  tables : List JStr
  meta : List (JStr × Int)
  nextAlarm : Option Int
deriving DecidableEq, Repr

/-- `alarm` (src/unnamed/part_003 lines 405-448): if no
`lastFetched_%` meta row is within 24 hours of `now`, every `files_%`
table and all meta rows are dropped and the alarm is cleared; otherwise
nothing is touched and the alarm is re-armed for `now + 24h`. -/
def alarmRun (tables : List JStr) (meta : List (JStr × Int)) (now : Int) :
    AlarmResult :=
  let entries := meta.filter fun kv => (jstr ("lastFetched_")).isPrefixOf kv.1
  let oneDayAgo := now - DAY_MS
  let anyActive := entries.any fun kv => kv.2 ≥ oneDayAgo
  if !anyActive then
    { tables := tables.filter fun t => !((jstr ("files_")).isPrefixOf t),
      meta := [],
      nextAlarm := none }
  else
    { tables := tables, meta := meta, nextAlarm := some (now + DAY_MS) }

/-! ### Archive ingestion and batching (src/unnamed/part_003 lines 511-690)

`populateRepo` parses the tar stream, keeps file entries under 1 MB that
decode as UTF-8 and match the glob, accumulates them into 20 MiB batches
and sends each batch to `RepoCache.storeFiles`.  `micromatch.isMatch` is
an external library and is kept as an oracle parameter `mm`. -/

def slashChar : Char := Char.ofNat 47

/-- `ent.name.split('/').slice(1).join('/')`: strip the archive's
synthetic top-level folder. -/
def relNameOf (name : JStr) : JStr :=
  joinWith slashChar ((splitOnChar slashChar name).drop 1)

/-- One parsed tar entry as `populateRepo` observes it: its name, its
kind, its raw byte length, and the result of the fatal UTF-8 decode
(`none` = decode threw, i.e. binary content). -/
structure TarEntry where
  name : JStr
  isFile : Bool
  byteLength : Nat
  decodedText : Option JStr
deriving DecidableEq, Repr

/-- Truthiness guard `glob && glob !== '**/*'` of the filter condition. -/
def globFilters : Option JStr → Bool
  | none => false
  | some g => ¬(g = []) ∧ ¬(g = jstr ("**/*"))

/-- The fate of one tar entry in the ingestion loop: file entries only,
raw size under 1,000,000 bytes, decodable as UTF-8, and matching the
glob when the glob filters. -/
def admitEntry (mm : JStr → JStr → Bool) (glob : Option JStr)
    (ent : TarEntry) : Option (JStr × JStr) :=
  if !ent.isFile then none
  else if ent.byteLength < 1000000 then
    match ent.decodedText with
    | some txt =>
      let rel := relNameOf ent.name
      if globFilters glob ∧ mm rel (glob.getD []) = false then none
      else some (rel, txt)
    | none => none
  else none

/-- The `(path, content)` pairs that survive the ingestion filters, in
archive order. -/
def admittedFiles (mm : JStr → JStr → Bool) (glob : Option JStr)
    (entries : List TarEntry) : List (JStr × JStr) :=
  entries.filterMap (admitEntry mm glob)

/-- `MAX_BATCH_SIZE` (src/unnamed/part_003 line 619). -/
def MAX_BATCH_SIZE : Nat := 20 * 1024 * 1024

/-- `rel.length + txt.length`, the per-file contribution to the batch
size. -/
def fileSizeOf (f : JStr × JStr) : Nat := f.1.length + f.2.length

/-- The mutable state of the batching loop. -/
structure BatchState where
  currentBatch : List (JStr × JStr)
  currentBatchSize : Nat
  flushed : List (List (JStr × JStr))
deriving DecidableEq, Repr

/-- One iteration of the tar callback for an admitted file: flush first
when the file would overflow a non-empty batch, then append. -/
def batchStep (st : BatchState) (f : JStr × JStr) : BatchState :=
  if st.currentBatchSize + fileSizeOf f > MAX_BATCH_SIZE ∧
      st.currentBatch ≠ [] then
    { currentBatch := [f], currentBatchSize := fileSizeOf f,
      flushed := st.flushed ++ [st.currentBatch] }
  else
    { currentBatch := st.currentBatch ++ [f],
      currentBatchSize := st.currentBatchSize + fileSizeOf f,
      flushed := st.flushed }

/-- All batches sent to `storeFiles` during one population run, in
order: the flushed ones plus the non-empty trailing batch. -/
def batchesOf (files : List (JStr × JStr)) : List (List (JStr × JStr)) :=
  let fin := files.foldl batchStep ⟨[], 0, []⟩
  if fin.currentBatch ≠ [] then fin.flushed ++ [fin.currentBatch]
  else fin.flushed

/-- Serialized size of one batch: the sum of path length plus content
length over its pairs. -/
def batchBytes (b : List (JStr × JStr)) : Nat := (b.map fileSizeOf).sum

theorem batchBytes_nil : batchBytes [] = 0 := rfl

theorem batchBytes_append (a b : List (JStr × JStr)) :
    batchBytes (a ++ b) = batchBytes a + batchBytes b := by
  simp [batchBytes]

/-- Invariant of the batching fold: the tracked size is exact, the open
batch respects the ceiling, and every flushed batch respects it. -/
theorem batch_fold_inv (files : List (JStr × JStr))
    (h : ∀ f ∈ files, fileSizeOf f ≤ MAX_BATCH_SIZE) :
    ∀ st : BatchState,
      st.currentBatchSize = batchBytes st.currentBatch →
      batchBytes st.currentBatch ≤ MAX_BATCH_SIZE →
      (∀ b ∈ st.flushed, batchBytes b ≤ MAX_BATCH_SIZE) →
      (files.foldl batchStep st).currentBatchSize
          = batchBytes (files.foldl batchStep st).currentBatch ∧
        batchBytes (files.foldl batchStep st).currentBatch ≤ MAX_BATCH_SIZE ∧
        ∀ b ∈ (files.foldl batchStep st).flushed,
          batchBytes b ≤ MAX_BATCH_SIZE := by
  induction files with
  | nil =>
    intro st h1 h2 h3
    exact ⟨h1, h2, h3⟩
  | cons f rest ih =>
    intro st h1 h2 h3
    have hf : fileSizeOf f ≤ MAX_BATCH_SIZE := h f (by simp)
    have hrest : ∀ g ∈ rest, fileSizeOf g ≤ MAX_BATCH_SIZE := by
      intro g hg
      exact h g (by simp [hg])
    simp only [List.foldl_cons]
    by_cases hcond : st.currentBatchSize + fileSizeOf f > MAX_BATCH_SIZE ∧
        st.currentBatch ≠ []
    · have hstep : batchStep st f =
          { currentBatch := [f], currentBatchSize := fileSizeOf f,
            flushed := st.flushed ++ [st.currentBatch] } := by
        simp [batchStep, hcond]
      rw [hstep]
      refine ih hrest _ ?_ ?_ ?_
      · simp [batchBytes, fileSizeOf]
      · simpa [batchBytes, fileSizeOf] using hf
      · intro b hb
        rcases List.mem_append.mp hb with hb | hb
        · exact h3 b hb
        · simp at hb
          subst hb
          exact h2
    · have hstep : batchStep st f =
          { currentBatch := st.currentBatch ++ [f],
            currentBatchSize := st.currentBatchSize + fileSizeOf f,
            flushed := st.flushed } := by
        simp only [batchStep, if_neg hcond]
      rw [hstep]
      refine ih hrest _ ?_ ?_ ?_
      · simp [batchBytes_append, batchBytes, h1]
      · rw [batchBytes_append]
        by_cases hemp : st.currentBatch = []
        · rw [hemp]
          simpa [batchBytes] using hf
        · have : ¬ st.currentBatchSize + fileSizeOf f > MAX_BATCH_SIZE := by
            intro hgt
            exact hcond ⟨hgt, hemp⟩
          rw [← h1]
          simpa [batchBytes] using this
      · exact h3

/-- Every batch of a run respects the ceiling, provided every admitted
pair fits in a batch by itself (ingestion caps content below 1,000,000
bytes, so this only excludes pathological multi-megabyte paths). -/
theorem batchesOf_le (files : List (JStr × JStr))
    (h : ∀ f ∈ files, fileSizeOf f ≤ MAX_BATCH_SIZE) :
    ∀ b ∈ batchesOf files, batchBytes b ≤ MAX_BATCH_SIZE := by
  have hinv := batch_fold_inv files h ⟨[], 0, []⟩ (by simp [batchBytes])
    (by simp [batchBytes]) (by simp)
  intro b hb
  simp only [batchesOf] at hb
  split at hb
  · rcases List.mem_append.mp hb with hb | hb
    · exact hinv.2.2 b hb
    · simp at hb
      subst hb
      exact hinv.2.1
  · exact hinv.2.2 b hb

/-- The batching fold loses and reorders nothing. -/
theorem batch_fold_join (files : List (JStr × JStr)) :
    ∀ st : BatchState,
      (files.foldl batchStep st).flushed.flatten ++
          (files.foldl batchStep st).currentBatch
        = st.flushed.flatten ++ st.currentBatch ++ files := by
  induction files with
  | nil => intro st; simp
  | cons f rest ih =>
    intro st
    simp only [List.foldl_cons]
    rw [ih (batchStep st f)]
    by_cases hcond : st.currentBatchSize + fileSizeOf f > MAX_BATCH_SIZE ∧
        st.currentBatch ≠ []
    · simp [batchStep, hcond]
    · simp only [batchStep, if_neg hcond]
      simp

/-- Concatenating the batches of a run gives back the admitted files. -/
theorem batchesOf_flatten (files : List (JStr × JStr)) :
    (batchesOf files).flatten = files := by
  have h := batch_fold_join files ⟨[], 0, []⟩
  simp only [batchesOf]
  split
  · simpa using h
  · next hemp =>
    simp at hemp
    rw [hemp] at h
    simpa using h

/-- `storeFiles` (src/unnamed/part_003 lines 450-496) on the rows of one
glob's file table: the first batch of a run first deletes every prior
row, every batch then inserts its rows in order. -/
def storeFilesRows (table : List (JStr × JStr))
    (files : List (JStr × JStr)) (isFirstBatch : Bool) : List (JStr × JStr) :=
  (if isFirstBatch then [] else table) ++ files

/-- The file-table contents after a complete population run: each batch
is sent with `batchNumber === 0` deciding `isFirstBatch`.  When no batch
is ever sent (no admitted files) the table is left untouched. -/
def populateTable (oldTable : List (JStr × JStr)) (mm : JStr → JStr → Bool)
    (glob : Option JStr) (entries : List TarEntry) : List (JStr × JStr) :=
  match batchesOf (admittedFiles mm glob entries) with
  | [] => oldTable
  | b0 :: rest =>
    rest.foldl (fun t b => storeFilesRows t b false) (storeFilesRows oldTable b0 true)

theorem foldl_storeFiles_append (bs : List (List (JStr × JStr))) :
    ∀ acc : List (JStr × JStr),
      bs.foldl (fun t b => storeFilesRows t b false) acc = acc ++ bs.flatten := by
  induction bs with
  | nil => intro acc; simp
  | cons b rest ih =>
    intro acc
    rw [List.foldl_cons, ih]
    simp [storeFilesRows]

/-- A population run with at least one admitted file fully replaces the
table with the admitted files, in archive order. -/
theorem populateTable_eq (oldTable : List (JStr × JStr))
    (mm : JStr → JStr → Bool) (glob : Option JStr) (entries : List TarEntry)
    (h : admittedFiles mm glob entries ≠ []) :
    populateTable oldTable mm glob entries = admittedFiles mm glob entries := by
  have hflat := batchesOf_flatten (admittedFiles mm glob entries)
  simp only [populateTable]
  cases hb : batchesOf (admittedFiles mm glob entries) with
  | nil =>
    rw [hb] at hflat
    simp at hflat
    exact absurd hflat h
  | cons b0 rest =>
    rw [hb] at hflat
    show rest.foldl (fun t b => storeFilesRows t b false)
      (storeFilesRows oldTable b0 true) = admittedFiles mm glob entries
    rw [foldl_storeFiles_append, storeFilesRows]
    simpa using hflat

/-- `SELECT content FROM files WHERE path = ?`: the first (and, path
being the primary key, only) row with the given path. -/
def findRowContent : List (JStr × JStr) → JStr → Option JStr
  | [], _ => none
  | r :: rest, p => if r.1 = p then some r.2 else findRowContent rest p

/-- `RepoCache.getFile` (src/unnamed/part_003 lines 238-282) after the
freshness check: `none` models the 404 response for an unknown path,
`some` the formatted body. -/
def RepoCache_getFile (table : List (JStr × JStr)) (filePath : JStr)
    (showLineNumbers : Bool) (start endL : Option Int) : Option JStr :=
  (findRowContent table filePath).map fun content =>
    formatFileWithLines content showLineNumbers start endL MAX_FILE_LINES

/-- The files route's `finalEnd` (src/unnamed/part_003 lines 899-900):
a `start` without an `end` is given the window end `start + 49`. -/
def routeFinalEnd (start endQ : Option Int) : Option Int :=
  match start, endQ with
  | some s, none => some (s + 49)
  | _, e => e

/-- The files route handler's read (src/unnamed/part_003 lines 930-939):
`getFile` is called with the query's `start` and the computed
`finalEnd`. -/
def filesRoute_getFile (table : List (JStr × JStr)) (filePath : JStr)
    (showLineNumbers : Bool) (startQ endQ : Option Int) : Option JStr :=
  RepoCache_getFile table filePath showLineNumbers startQ
    (routeFinalEnd startQ endQ)

/-- An entry passing every ingestion filter is admitted with its
repository-relative path and decoded content. -/
theorem admitEntry_some (mm : JStr → JStr → Bool) (glob : Option JStr)
    (e : TarEntry) (hfile : e.isFile = true) (hsize : e.byteLength < 1000000)
    {C : JStr} (hdec : e.decodedText = some C)
    (hglob : globFilters glob = false ∨
      mm (relNameOf e.name) (glob.getD []) = true) :
    admitEntry mm glob e = some (relNameOf e.name, C) := by
  simp only [admitEntry, hfile, hsize, hdec, Bool.not_true, Bool.false_eq_true,
    if_false, if_true]
  rcases hglob with hglob | hglob <;> simp [hglob]

/-- Whatever an entry is admitted as, its stored path is the entry's
repository-relative name. -/
theorem admitEntry_fst (mm : JStr → JStr → Bool) (glob : Option JStr)
    (e : TarEntry) (p : JStr × JStr) (h : admitEntry mm glob e = some p) :
    p.1 = relNameOf e.name := by
  simp only [admitEntry] at h
  split at h
  · exact absurd h (by simp)
  · split at h
    · split at h
      · split at h
        · exact absurd h (by simp)
        · injection h with h2
          rw [← h2]
      · exact absurd h (by simp)
    · exact absurd h (by simp)

/-- Looking up an admitted entry's path in the ingested rows returns its
content, provided no other entry carries the same relative path. -/
theorem findRow_admitted (mm : JStr → JStr → Bool) (glob : Option JStr) :
    ∀ (entries : List TarEntry) (e : TarEntry), e ∈ entries →
      e.isFile = true → e.byteLength < 1000000 →
      ∀ C : JStr, e.decodedText = some C →
      (globFilters glob = false ∨
        mm (relNameOf e.name) (glob.getD []) = true) →
      (∀ e2 ∈ entries, e2 ≠ e → relNameOf e2.name ≠ relNameOf e.name) →
      findRowContent (admittedFiles mm glob entries) (relNameOf e.name)
        = some C := by
  intro entries
  induction entries with
  | nil =>
    intro e hmem
    exact absurd hmem (by simp)
  | cons a rest ih =>
    intro e hmem hfile hsize C hdec hglob huniq
    by_cases hae : a = e
    · subst hae
      have hfe := admitEntry_some mm glob a hfile hsize hdec hglob
      simp only [admittedFiles, List.filterMap_cons, hfe]
      simp [findRowContent]
    · have hrel : relNameOf a.name ≠ relNameOf e.name :=
        huniq a (by simp) hae
      have hmem2 : e ∈ rest := by
        rcases List.mem_cons.mp hmem with h | h
        · exact absurd h.symm hae
        · exact h
      have huniq2 : ∀ e2 ∈ rest, e2 ≠ e → relNameOf e2.name ≠ relNameOf e.name := by
        intro e2 h2 hne
        exact huniq e2 (by simp [h2]) hne
      have htail := ih e hmem2 hfile hsize C hdec hglob huniq2
      simp only [admittedFiles, List.filterMap_cons]
      cases ha : admitEntry mm glob a with
      | none => exact htail
      | some p =>
        have hp := admitEntry_fst mm glob a p ha
        simp only [findRowContent, hp, if_neg hrel]
        exact htail

/-! ### JS string search helpers

`String.prototype.indexOf` and friends return `-1` on failure; the
embeddings keep that convention so the source's `=== -1` tests read the
same. -/

/-- First index at which `needle` occurs in `hay`, else `none`
(`indexOf` of the empty string is 0, as in JS). -/
def indexOfSub? (hay needle : JStr) : Option Nat :=
  if needle.isPrefixOf hay then some 0
  else
    match hay with
    | [] => none
    | _ :: t => (indexOfSub? t needle).map (· + 1)

/-- `hay.indexOf(needle)` with the JS `-1` convention. -/
def jsIndexOf (hay needle : JStr) : Int :=
  match indexOfSub? hay needle with
  | some i => (i : Int)
  | none => -1

/-- `s.indexOf(c, fromIndex)` for a single character. -/
def jsIndexOfCharFrom (s : JStr) (c : Char) (fromIdx : Nat) : Int :=
  match s.enum.find? (fun p => decide (fromIdx ≤ p.1) && decide (p.2 = c)) with
  | some p => (p.1 : Int)
  | none => -1

/-- `s.lastIndexOf(c, position)`: the largest index `≤ position` holding
`c`; a negative position is clamped to 0. -/
def jsLastIndexOfChar (s : JStr) (c : Char) (pos : Int) : Int :=
  let posC : Nat := if pos < 0 then 0 else pos.toNat
  match (s.enum.filter fun p => decide (p.1 ≤ posC) && decide (p.2 = c)).getLast? with
  | some p => (p.1 : Int)
  | none => -1

/-- `s.substring(a, b)`: both ends clamped into `[0, length]` and
swapped when out of order. -/
def jsSubstring (s : JStr) (a b : Int) : JStr :=
  let len : Int := s.length
  let a2 := min (max a 0) len
  let b2 := min (max b 0) len
  let lo := min a2 b2
  let hi := max a2 b2
  (s.take hi.toNat).drop lo.toNat

/-- `s.substring(a)`: from `a` to the end. -/
def jsSubstringFrom (s : JStr) (a : Int) : JStr :=
  jsSubstring s a (s.length : Int)

/-- The whitespace class of JS `trim` / `\s` (ASCII part; the worker
only meets ASCII whitespace). -/
def isJsWs (c : Char) : Bool :=
  c.toNat = 32 ∨ c.toNat = 9 ∨ c.toNat = 10 ∨ c.toNat = 13 ∨
    c.toNat = 11 ∨ c.toNat = 12

/-- `s.trim()`. -/
def jsTrim (s : JStr) : JStr :=
  ((s.dropWhile isJsWs).reverse.dropWhile isJsWs).reverse

/-- Worker for `s.split(/\s+/)`: `inTok` tells whether we are inside a
token (`cur` its reversed prefix) or skipping a whitespace run. -/
def splitWsAux : Bool → JStr → JStr → List JStr
  | true, cur, [] => [cur.reverse]
  | true, cur, c :: rest =>
    if isJsWs c then cur.reverse :: splitWsAux false [] rest
    else splitWsAux true (c :: cur) rest
  | false, _, [] => [[]]
  | false, _, c :: rest =>
    if isJsWs c then splitWsAux false [] rest
    else splitWsAux true [c] rest

/-- `s.split(/\s+/)`: maximal whitespace runs separate the pieces;
leading/trailing runs contribute empty pieces, as in JS. -/
def splitWs (s : JStr) : List JStr := splitWsAux true [] s

/-- The fallback loop of `findLineNumberInContent`: the hit of the
first snippet word found in the content. -/
def firstWordHit (content : JStr) : List JStr → Int
  | [] => -1
  | w :: rest =>
    let wi := jsIndexOf content w
    if wi ≠ -1 then wi else firstWordHit content rest

/-- `findLineNumberInContent` (src/src/utils.ts lines 48-95): locate the
(trimmed) snippet in the content, falling back to its first word longer
than two characters, and count the newlines before the hit. -/
def findLineNumberInContent (content searchSnippet : JStr) : Option Nat :=
  if content = [] ∨ searchSnippet = [] then none
  else
    let cleanSnippet := jsTrim searchSnippet
    if cleanSnippet.length < 3 then none
    else
      let index0 := jsIndexOf content cleanSnippet
      let index :=
        if index0 = -1 then
          let words := (splitWs cleanSnippet).filter fun w => w.length > 2
          firstWordHit content words
        else index0
      if index = -1 then none
      else some ((splitOnChar nlChar (content.take index.toNat)).length)

/-- `'...'`. -/
def dots : JStr := jstr ("...")

/-- `extractSnippetFromContent` (src/src/utils.ts lines 174-227):
a bounded snippet around the first case-insensitive hit of the query,
with ellipses and word-boundary trims. -/
def extractSnippetFromContent (content searchQuery : JStr)
    (maxLength : Nat) : JStr :=
  if content = [] ∨ searchQuery = [] then []
  else
    let lowerContent := content.map Char.toLower
    let lowerQuery := searchQuery.map Char.toLower
    let index := jsIndexOf lowerContent lowerQuery
    if index = -1 then
      let lines := joinWith nlChar ((splitOnChar nlChar content).take 3)
      if lines.length > maxLength then (lines.take maxLength) ++ dots
      else lines
    else
      let contextRadius : Int := Int.fdiv ((maxLength : Int) - (searchQuery.length : Int)) 2
      let start : Int := max 0 (index - contextRadius)
      let stop : Int :=
        min ((content.length : Int)) (index + (searchQuery.length : Int) + contextRadius)
      let snippet0 := jsSubstring content start stop
      let snippet1 := if start > 0 then dots ++ snippet0 else snippet0
      let snippet2 :=
        if stop < (content.length : Int) then snippet1 ++ dots else snippet1
      let snippet3 :=
        if start > 0 then
          let firstSpace := jsIndexOfCharFrom snippet2 spaceChar 3
          if firstSpace > 3 ∧ firstSpace < 20 then
            dots ++ jsSubstringFrom snippet2 (firstSpace + 1)
          else snippet2
        else snippet2
      if stop < (content.length : Int) then
        let lastSpace := jsLastIndexOfChar snippet3 spaceChar ((snippet3.length : Int) - 4)
        if lastSpace > (snippet3.length : Int) - 20 then
          jsSubstring snippet3 0 lastSpace ++ dots
        else snippet3
      else snippet3

/-! ### `searchFiles` in the shipped configuration (src/unnamed/part_003
lines 284-387, `ENABLE_FTS = false`)

The SQL engine's `LIKE ... COLLATE NOCASE` operator is embedded with its
standard semantics: `%` matches any run of characters, `_` any single
character, other characters match ASCII case-insensitively. -/

def ENABLE_FTS : Bool := false

def pctChar : Char := Char.ofNat 37

/-- Scan for a match of the rest of the pattern after a `%`: try every
suffix of the text. -/
def scanPct (f : JStr → Bool) : JStr → Bool
  | [] => f []
  | c :: t2 => f (c :: t2) || scanPct f t2

/-- SQLite `LIKE` (pattern against text), ASCII case-insensitive. -/
def likeMatch : JStr → JStr → Bool
  | [], t => t.isEmpty
  | p0 :: p, t =>
    if p0 = pctChar then scanPct (likeMatch p) t
    else
      match t with
      | [] => false
      | d :: t2 =>
        if p0 = underscoreChar then likeMatch p t2
        else (Char.toLower p0 = Char.toLower d) && likeMatch p t2

/-- `text LIKE pattern COLLATE NOCASE`. -/
def sqlLikeNoCase (text pattern : JStr) : Bool := likeMatch pattern text

/-- One row of a glob's file table as the search query reads it. -/
structure SearchRow where
  path : JStr
  content : JStr
deriving DecidableEq, Repr

/-- One entry of the result list built by `searchFiles`. -/
structure SearchResult where
  path : JStr
  snippet : JStr
  url : JStr
  lineNumber : Option Nat
deriving DecidableEq, Repr

/-- Binary (code-point) string order, the SQL `ORDER BY path` order for
the ASCII paths the worker stores. -/
def jstrLe : JStr → JStr → Bool
  | [], _ => true
  | _ :: _, [] => false
  | c :: a2, d :: b2 =>
    if c.toNat < d.toNat then true
    else if d.toNat < c.toNat then false
    else jstrLe a2 b2

/-- The `ORDER BY` key of the LIKE branch: path matches first, then
lexicographic path order. -/
def searchRowLe (likePattern : JStr) (a b : SearchRow) : Bool :=
  let ra : Nat := if sqlLikeNoCase a.path likePattern then 0 else 1
  let rb : Nat := if sqlLikeNoCase b.path likePattern then 0 else 1
  if ra < rb then true
  else if rb < ra then false
  else jstrLe a.path b.path

def insertLe (le : α → α → Bool) (x : α) : List α → List α
  | [] => [x]
  | y :: t => if le x y then x :: y :: t else y :: insertLe le x t

/-- Deterministic sort by a total order; the rows' primary-key paths
make the search order total, so this is the `ORDER BY` result. -/
def sortLe (le : α → α → Bool) : List α → List α
  | [] => []
  | x :: t => insertLe le x (sortLe le t)

/-- `snippet.replace(/^\.\.\.|\.\.\.$/, '')`: a single replacement, a
leading ellipsis taking precedence. -/
def stripEdgeEllipsis (s : JStr) : JStr :=
  if dots.isPrefixOf s then s.drop 3
  else if dots.isSuffixOf s then s.take (s.length - 3)
  else s

def qMarkChar : Char := Char.ofNat 63
def ampChar : Char := Char.ofNat 38
def eqChar : Char := Char.ofNat 61

/-- The result URL built for one hit (src/unnamed/part_003 lines
362-373). -/
def searchHitUrl (owner repo branch path : JStr) (glob : Option JStr)
    (lineNumber : Option Nat) : JStr :=
  let base := jstr ("/repos/") ++ owner ++ [slashChar] ++ repo ++ [slashChar]
    ++ branch ++ jstr ("/files/") ++ path
  let qp0 : List JStr :=
    match lineNumber with
    | some v => [jstr ("start=") ++ decRepr v]
    | none => []
  let qp1 : List JStr := qp0 ++
    (match glob with
     | some g => if g ≠ [] ∧ g ≠ DEFAULT_GLOB then [jstr ("glob=") ++ g] else []
     | none => [])
  if qp1 ≠ [] then base ++ [qMarkChar] ++ joinWith ampChar qp1 else base

/-- `RepoCache.searchFiles` in the shipped (`ENABLE_FTS = false`)
configuration, for an already-URL-decoded query: LIKE filter over path
and content, `ORDER BY` path-match rank then path, then snippet
extraction and line-number resolution per row. -/
def searchFiles (owner repo branch : JStr) (glob : Option JStr)
    (rows : List SearchRow) (searchQuery : JStr) : List SearchResult :=
  let likePattern : JStr := pctChar :: (searchQuery ++ [pctChar])
  let matched := rows.filter fun r =>
    sqlLikeNoCase r.path likePattern || sqlLikeNoCase r.content likePattern
  let ordered := sortLe (searchRowLe likePattern) matched
  ordered.map fun r =>
    let snippet := extractSnippetFromContent r.content searchQuery 200
    let cleanSnippet := stripEdgeEllipsis snippet
    let lineNumber := findLineNumberInContent r.content cleanSnippet
    { path := r.path,
      snippet := snippet,
      url := searchHitUrl owner repo branch r.path glob lineNumber,
      lineNumber := lineNumber }

/-! ### The stale-read / populate flow (src/unnamed/part_003 lines
807-861 and 887-966)

Two concurrent requests for the same (key, glob signature) are modelled
as two programs advancing through the phases of the route handler.  The
only state shared between them is the partition's stored `lastFetched`
value: `ensureFresh` runs inside the Durable Object (one atomic step),
but `populateRepo` — including the archive `fetch` — runs in the Worker
request handler, which consults no lock or in-flight marker before
fetching; `NEEDS_REFRESH` is answered unconditionally with a
`populateRepo` call.  Each transition below is one of those code
steps. -/

/-- Where a request is in the handler. -/
inductive ReqPhase
  /-- About to call the Durable Object method (which calls `ensureFresh`). -/
  | start
  /-- `ensureFresh` threw `NEEDS_REFRESH`; the handler will call `populateRepo`. -/
  | needsPopulation
  /-- `populateRepo` has issued its archive `fetch` and is streaming it. -/
  | fetching
  /-- The stream is consumed; batches are being stored. -/
  | storing
  /-- Finished (response sent, or `finalizeBatch` done and read retried). -/
  | done
deriving DecidableEq, Repr

/-- Shared partition state plus the two requests' phases. -/
structure FlowState where
  lastFetched : Int
  phaseA : ReqPhase
  phaseB : ReqPhase
deriving DecidableEq, Repr

/-- One step of one request: the freshness test is `ensureFresh`'s
comparison; `storing → done` performs `finalizeBatch`'s timestamp
write. -/
def reqStep (now ttl : Int) (ph : ReqPhase) (last : Int) : ReqPhase × Int :=
  match ph with
  | .start => if now - last < ttl then (.done, last) else (.needsPopulation, last)
  | .needsPopulation => (.fetching, last)
  | .fetching => (.storing, last)
  | .storing => (.done, now)
  | .done => (.done, last)

/-- Advance request A (`true`) or request B (`false`). -/
def flowStep (now ttl : Int) (σ : FlowState) (r : Bool) : FlowState :=
  if r then
    let p := reqStep now ttl σ.phaseA σ.lastFetched
    { σ with phaseA := p.1, lastFetched := p.2 }
  else
    let p := reqStep now ttl σ.phaseB σ.lastFetched
    { σ with phaseB := p.1, lastFetched := p.2 }

/-- Run a schedule (a list of which request moves next). -/
def runSched (now ttl : Int) (σ : FlowState) : List Bool → FlowState
  | [] => σ
  | r :: rest => runSched now ttl (flowStep now ttl σ r) rest

/-- Both requests have an archive fetch in flight at the same moment. -/
def overlappingFetches (σ : FlowState) : Bool :=
  σ.phaseA = .fetching ∧ σ.phaseB = .fetching

/-! ### Split/join inverse lemmas for separator-free pieces -/

theorem splitOnChar_no_sep (sep : Char) (s : JStr) (h : sep ∉ s) :
    splitOnChar sep s = [s] := by
  induction s with
  | nil => rfl
  | cons c rest ih =>
    have hc : c ≠ sep := fun hcs => h (hcs ▸ List.mem_cons_self c rest)
    have hrest : sep ∉ rest := fun hm => h (List.mem_cons_of_mem c hm)
    rw [splitOnChar_cons_ne sep c rest hc, ih hrest]
    simp

theorem splitOnChar_append_sep (sep : Char) (x r : JStr) (hx : sep ∉ x) :
    splitOnChar sep (x ++ sep :: r) = x :: splitOnChar sep r := by
  induction x with
  | nil => simpa using splitOnChar_cons_self sep r
  | cons c x2 ih =>
    have hc : c ≠ sep := fun hcs => hx (hcs ▸ List.mem_cons_self c x2)
    have hx2 : sep ∉ x2 := fun hm => hx (List.mem_cons_of_mem c hm)
    rw [List.cons_append, splitOnChar_cons_ne sep c (x2 ++ sep :: r) hc, ih hx2]
    simp

/-- Splitting a join of separator-free pieces recovers the pieces. -/
theorem splitOnChar_joinWith (sep : Char) :
    ∀ pieces : List JStr, pieces ≠ [] → (∀ p ∈ pieces, sep ∉ p) →
      splitOnChar sep (joinWith sep pieces) = pieces := by
  intro pieces
  induction pieces with
  | nil => intro h; exact absurd rfl h
  | cons x rest ih =>
    intro _ hsep
    cases rest with
    | nil =>
      simpa [joinWith] using splitOnChar_no_sep sep x (hsep x (by simp))
    | cons y t =>
      have hx : sep ∉ x := hsep x (by simp)
      have hrest : ∀ p ∈ y :: t, sep ∉ p := fun p hp => hsep p (by simp [hp])
      show splitOnChar sep (x ++ sep :: joinWith sep (y :: t)) = x :: y :: t
      rw [splitOnChar_append_sep sep x _ hx, ih (by simp) hrest]

theorem joinWith_head (sep : Char) (p : JStr) (rest : List JStr)
    (hp : p ≠ []) : (joinWith sep (p :: rest)).head? = p.head? := by
  cases rest with
  | nil => simp [joinWith]
  | cons y t =>
    cases p with
    | nil => exact absurd rfl hp
    | cons c p2 => simp [joinWith]

/-! ## Claim theorems -/

/-- Claim C1, counterexample: from a stale partition (lastFetched 0, now
= TTL), the schedule "A's ensureFresh, B's ensureFresh, A's fetch, B's
fetch" is executable: both requests observe NEEDS_REFRESH, and the
resulting state has both archive fetches in flight at once — the claim
says this never happens. -/
theorem C1_counterexample :
    (runSched 21600000 21600000 ⟨0, .start, .start⟩ [true, false]).phaseA
        = .needsPopulation ∧
    (runSched 21600000 21600000 ⟨0, .start, .start⟩ [true, false]).phaseB
        = .needsPopulation ∧
    overlappingFetches
      (runSched 21600000 21600000 ⟨0, .start, .start⟩
        [true, false, true, false]) = true := by
  decide

/-- Claim C1 (amended): the route handlers answer `NEEDS_REFRESH` with an
unconditional `populateRepo` call in the Worker, so whenever two
concurrent reads both find the partition stale, the interleaving in which
each runs `ensureFresh` before either fetches puts two archive fetches
for the same (key, glob signature) in flight simultaneously: population
is not single-flight. -/
theorem C1_overlap_reachable (last now ttl : Int) (h : ttl ≤ now - last) :
    overlappingFetches
      (runSched now ttl ⟨last, .start, .start⟩ [true, false, true, false])
      = true := by
  have hns : ¬ (now - last < ttl) := by omega
  simp [runSched, flowStep, reqStep, overlappingFetches, hns]

theorem C1_overlap_reachable_witness :
    (21600000 : Int) ≤ 21600000 - 0 ∧
    overlappingFetches
      (runSched 21600000 21600000 ⟨0, .start, .start⟩
        [true, false, true, false]) = true :=
  ⟨by decide, C1_overlap_reachable 0 21600000 21600000 (by decide)⟩

/-- Claim C2: `ensureFresh` returns normally (Fresh) exactly when
`now - lastFetched < ttl`, where `lastFetched` is the stored meta value
for the glob signature, or 0 when no row exists; in particular the
equivalence holds 1 ms before the TTL boundary (fresh) and at/1 ms after
it (refresh). -/
theorem C2_ensureFresh_iff (meta : List (JStr × Int)) (glob : Option JStr)
    (now ttl : Int) :
    (ensureFresh meta glob now ttl = .fresh ↔
      now - (metaLookup meta (metaKeyFor glob)).getD 0 < ttl) ∧
    ensureFresh meta glob
        ((metaLookup meta (metaKeyFor glob)).getD 0 + ttl - 1) ttl = .fresh ∧
    ensureFresh meta glob
        ((metaLookup meta (metaKeyFor glob)).getD 0 + ttl) ttl = .needsRefresh ∧
    ensureFresh meta glob
        ((metaLookup meta (metaKeyFor glob)).getD 0 + ttl + 1) ttl
      = .needsRefresh := by
  refine ⟨?_, ?_, ?_, ?_⟩
  · by_cases h : now - (metaLookup meta (metaKeyFor glob)).getD 0 < ttl <;>
      simp [ensureFresh, h]
  · simp only [ensureFresh]
    rw [if_pos (by omega)]
  · simp only [ensureFresh]
    rw [if_neg (by omega)]
  · simp only [ensureFresh]
    rw [if_neg (by omega)]

/-- Claim C4: every batch flushed by the population loop — including the
trailing one — has serialized size (sum of path length + content length)
at most `MAX_BATCH_SIZE` (20 MiB), provided each admitted pair fits in a
batch by itself; the ingestion loop already caps every content below
1,000,000 bytes, so the hypothesis only excludes paths many megabytes
long. -/
theorem C4_batch_ceiling (files : List (JStr × JStr))
    (h : ∀ f ∈ files, fileSizeOf f ≤ MAX_BATCH_SIZE) :
    ∀ b ∈ batchesOf files, batchBytes b ≤ MAX_BATCH_SIZE :=
  batchesOf_le files h

theorem C4_batch_ceiling_witness :
    (∀ f ∈ [(jstr ("README.md"), jstr ("hello")),
        (jstr ("docs/guide.md"), jstr ("world"))],
      fileSizeOf f ≤ MAX_BATCH_SIZE) ∧
    ∀ b ∈ batchesOf [(jstr ("README.md"), jstr ("hello")),
        (jstr ("docs/guide.md"), jstr ("world"))],
      batchBytes b ≤ MAX_BATCH_SIZE :=
  ⟨by decide, C4_batch_ceiling _ (by decide)⟩

/-- Claim C5, counterexample: a wake-up at time 172800000 with one glob
signature last fetched one hour earlier (well within 24 h) reschedules
the alarm for `now + 24h = 259200000`, not for 24 hours after the oldest
still-active timestamp (which would be 255600000). -/
theorem C5_counterexample :
    ((172800000 - 3600000 : Int) ≥ 172800000 - 86400000) ∧
    (alarmRun [jstr ("files_default")]
        [(jstr ("lastFetched_default"), 172800000 - 3600000)]
        172800000).nextAlarm = some (172800000 + 86400000) ∧
    (alarmRun [jstr ("files_default")]
        [(jstr ("lastFetched_default"), 172800000 - 3600000)]
        172800000).nextAlarm ≠ some ((172800000 - 3600000) + 86400000) := by
  decide

/-- Claim C5 (amended): when at least one tracked glob signature's
lastFetched lies within the last 24 hours, the wake-up deletes nothing
(tables and meta are untouched) and reschedules the next wake-up for
exactly 24 hours after the current time — not after the oldest
still-active timestamp. -/
theorem C5_active_reschedule (tables : List JStr) (meta : List (JStr × Int))
    (now : Int)
    (h : ((meta.filter fun kv => (jstr ("lastFetched_")).isPrefixOf kv.1).any
      fun kv => kv.2 ≥ now - DAY_MS) = true) :
    alarmRun tables meta now =
      { tables := tables, meta := meta, nextAlarm := some (now + DAY_MS) } := by
  simp only [alarmRun, h]
  rfl

theorem C5_active_reschedule_witness :
    ((([(jstr ("lastFetched_default"), (172800000 - 3600000 : Int))].filter
        fun kv => (jstr ("lastFetched_")).isPrefixOf kv.1).any
      fun kv => kv.2 ≥ 172800000 - DAY_MS) = true) ∧
    alarmRun [jstr ("files_default")]
        [(jstr ("lastFetched_default"), 172800000 - 3600000)] 172800000 =
      { tables := [jstr ("files_default")],
        meta := [(jstr ("lastFetched_default"), 172800000 - 3600000)],
        nextAlarm := some (172800000 + DAY_MS) } :=
  ⟨by decide, C5_active_reschedule _ _ _ (by decide)⟩

/-- Claim C6, counterexample: for stored content `"a\nb\nneedle here\nc"`
and query `"needle"`, the single search result is for that file but does
NOT carry line number 3: the 200-character snippet window swallows the
whole short content, so the snippet is located at offset 0 and the line
number resolves to 1. -/
theorem C6_counterexample :
    ((searchFiles (jstr ("o")) (jstr ("r")) (jstr ("b")) none
        [⟨jstr ("f.md"), jstr ("a\nb\nneedle here\nc")⟩]
        (jstr ("needle"))).map fun x => x.path) = [jstr ("f.md")] ∧
    ((searchFiles (jstr ("o")) (jstr ("r")) (jstr ("b")) none
        [⟨jstr ("f.md"), jstr ("a\nb\nneedle here\nc")⟩]
        (jstr ("needle"))).map fun x => x.lineNumber) ≠ [some 3] := by
  decide

/-- Claim C6 (amended): with stored content `"a\nb\nneedle here\nc"` and
query `"needle"`, search returns that file with line number 1 — the line
at which the extracted snippet (here the entire content, since the
context radius exceeds the content length) begins. -/
theorem C6_line_number_one :
    ((searchFiles (jstr ("o")) (jstr ("r")) (jstr ("b")) none
        [⟨jstr ("f.md"), jstr ("a\nb\nneedle here\nc")⟩]
        (jstr ("needle"))).map fun x => x.lineNumber) = [some 1] := by
  decide

/-- Claim C8, counterexample: the glob patterns `a.b` and `a_b` are
distinct yet map to the same table suffix `a_b`, so the mapping is not
injective and distinct glob scopes can collide in storage. -/
theorem C8_counterexample :
    globToTableSuffix (some (jstr ("a.b")))
        = globToTableSuffix (some (jstr ("a_b"))) ∧
    jstr ("a.b") ≠ jstr ("a_b") := by
  decide

/-- Claim C8 (amended): `globToTableSuffix` is a pure function of the
pattern (deterministic), the default pattern maps to the fixed signature
`markdown_only`, distinct from the all-files signature `all_files`; but
the mapping is NOT injective: distinct patterns differing only in
special characters collide. -/
theorem C8_suffix_properties :
    globToTableSuffix (some DEFAULT_GLOB) = jstr ("markdown_only") ∧
    globToTableSuffix (some (jstr ("**/*"))) = jstr ("all_files") ∧
    globToTableSuffix none = jstr ("default") ∧
    jstr ("markdown_only") ≠ jstr ("all_files") ∧
    ∃ g1 g2 : JStr, g1 ≠ g2 ∧
      globToTableSuffix (some g1) = globToTableSuffix (some g2) :=
  ⟨by decide, by decide, by decide, by decide,
    jstr ("a.b"), jstr ("a_b"), by decide, by decide⟩

/-- Claim C10: with `ENABLE_FTS = false` the query is embedded in a SQL
LIKE pattern, so `%` and `_` act as wildcards: the query `a%b` returns
the file `x.md` with content `axb`, and the query `a_c` returns the file
`y.md` with content `azc`, although neither path nor content contains
the query literally (`indexOf` is `-1` for all four). -/
theorem C10_like_wildcards :
    ((searchFiles (jstr ("o")) (jstr ("r")) (jstr ("b")) none
        [⟨jstr ("x.md"), jstr ("axb")⟩] (jstr ("a%b"))).map fun x => x.path)
      = [jstr ("x.md")] ∧
    jsIndexOf (jstr ("axb")) (jstr ("a%b")) = -1 ∧
    jsIndexOf (jstr ("x.md")) (jstr ("a%b")) = -1 ∧
    ((searchFiles (jstr ("o")) (jstr ("r")) (jstr ("b")) none
        [⟨jstr ("y.md"), jstr ("azc")⟩] (jstr ("a_c"))).map fun x => x.path)
      = [jstr ("y.md")] ∧
    jsIndexOf (jstr ("azc")) (jstr ("a_c")) = -1 ∧
    jsIndexOf (jstr ("y.md")) (jstr ("a_c")) = -1 := by
  decide

/-- Claim C9 (amended): for a getFile request supplying a positive start
line and no end line, the route computes the effective window end
`start + 49` (which `formatFileWithLines` keeps as its effective end
line), and the filtered window it slices holds at most 50 lines of file
content. -/
theorem C9_start_window (content : JStr) (s : Int) (hs : 1 ≤ s) :
    routeFinalEnd (some s) none = some (s + 49) ∧
    effEndLine (some s) (some (s + 49)) (splitOnChar nlChar content).length
      1000 = some (s + 49) ∧
    (filteredLinesOf (splitOnChar nlChar content) (some s)
      (some (s + 49))).length ≤ 50 := by
  refine ⟨rfl, by simp [effEndLine], ?_⟩
  have hbs : (s != 0) = true := by
    simp only [bne_iff_ne, ne_eq]
    omega
  have hbe : ((s + 49 : Int) != 0) = true := by
    simp only [bne_iff_ne, ne_eq]
    omega
  simp only [filteredLinesOf, startIdxOf, endValOf, jsTruthyOpt, hbs, hbe,
    jsSlice, if_true, ne_eq, reduceCtorEq, not_false_eq_true, true_or,
    if_pos, Option.getD_some]
  simp only [List.length_drop, List.length_take]
  have h1 : ¬ ((min (s + 49) ((splitOnChar nlChar content).length : Int)) < 0) := by
    omega
  rw [if_neg h1]
  omega

theorem C9_start_window_witness :
    (1 : Int) ≤ 2 ∧
    (routeFinalEnd (some 2) none = some (2 + 49) ∧
     effEndLine (some 2) (some (2 + 49))
       (splitOnChar nlChar (jstr ("a\nb\nc"))).length 1000 = some (2 + 49) ∧
     (filteredLinesOf (splitOnChar nlChar (jstr ("a\nb\nc"))) (some 2)
       (some (2 + 49))).length ≤ 50) :=
  ⟨by decide, C9_start_window (jstr ("a\nb\nc")) 2 (by decide)⟩

set_option maxRecDepth 2000 in
/-- Claim C9, counterexample: a request with `start = -60` and no `end`
on a 120-line file gets `finalEnd = -11`; JavaScript `slice` counts the
negative end from the end of the array, so the filtered window holds 109
lines — far more than 50 — refuting the claim for every request that
merely "supplies a start line". -/
theorem C9_counterexample :
    routeFinalEnd (some (-60)) none = some (-11) ∧
    (filteredLinesOf
      (splitOnChar nlChar (joinWith nlChar (List.replicate 120 (jstr ("a")))))
      (some (-60))
      (effEndLine (some (-60)) (routeFinalEnd (some (-60)) none)
        (splitOnChar nlChar
          (joinWith nlChar (List.replicate 120 (jstr ("a"))))).length
        1000)).length = 109 ∧
    (50 : Nat) < 109 := by
  refine ⟨by decide, by decide, by decide⟩

/-- Claim C3 (amended): ingesting an archive containing a file entry
that survives every filter — a file-kind entry under 1,000,000 bytes
whose content decodes to `C`, admitted by the glob, with no other entry
claiming the same repository-relative path — and then reading that path
via getFile with no start, end or showLineNumbers options returns
exactly `C`, provided `C` has at most 1000 lines (beyond that the read
is truncated, see the counterexample). -/
theorem C3_roundtrip (mm : JStr → JStr → Bool) (glob : Option JStr)
    (entries : List TarEntry) (oldTable : List (JStr × JStr))
    (e : TarEntry) (C : JStr)
    (hmem : e ∈ entries) (hfile : e.isFile = true)
    (hsize : e.byteLength < 1000000) (hdec : e.decodedText = some C)
    (hglob : globFilters glob = false ∨
      mm (relNameOf e.name) (glob.getD []) = true)
    (huniq : ∀ e2 ∈ entries, e2 ≠ e → relNameOf e2.name ≠ relNameOf e.name)
    (hlines : (splitOnChar nlChar C).length ≤ 1000) :
    RepoCache_getFile (populateTable oldTable mm glob entries)
      (relNameOf e.name) false none none = some C := by
  have hfind := findRow_admitted mm glob entries e hmem hfile hsize C hdec
    hglob huniq
  have hne : admittedFiles mm glob entries ≠ [] := by
    intro h0
    rw [h0] at hfind
    simp [findRowContent] at hfind
  simp only [RepoCache_getFile, populateTable_eq oldTable mm glob entries hne,
    hfind, Option.map_some']
  rw [show MAX_FILE_LINES = 1000 from rfl, formatFile_raw_id C hlines]

theorem C3_roundtrip_witness :
    RepoCache_getFile
      (populateTable [] (fun _ _ => false) none
        [⟨jstr ("repo-main/README.md"), true, 5, some (jstr ("hello"))⟩])
      (relNameOf (jstr ("repo-main/README.md"))) false none none
      = some (jstr ("hello")) :=
  C3_roundtrip (fun _ _ => false) none
    [⟨jstr ("repo-main/README.md"), true, 5, some (jstr ("hello"))⟩] []
    ⟨jstr ("repo-main/README.md"), true, 5, some (jstr ("hello"))⟩
    (jstr ("hello"))
    (by decide) rfl (by decide) rfl (Or.inl rfl) (by decide) (by decide)

/-- Claim C3, counterexample: a 1001-line text file of 2001 bytes —
well under the 1,000,000-byte cap — does not round-trip: the
option-free read is truncated at 1000 numbered lines, so it cannot
equal the stored content (their first characters already differ). -/
theorem C3_counterexample :
    RepoCache_getFile
      (populateTable [] (fun _ _ => false) none
        [⟨jstr ("repo-main/f.md"), true, 2001,
          some (joinWith nlChar (List.replicate 1001 (jstr ("a"))))⟩])
      (jstr ("f.md")) false none none
      ≠ some (joinWith nlChar (List.replicate 1001 (jstr ("a")))) := by
  intro hEq
  set C := joinWith nlChar (List.replicate 1001 (jstr ("a"))) with hC
  have hnosep : ∀ p ∈ List.replicate 1001 (jstr ("a")), nlChar ∉ p := by
    intro p hp
    rw [List.eq_of_mem_replicate hp]
    decide
  have hsplit : splitOnChar nlChar C = List.replicate 1001 (jstr ("a")) :=
    splitOnChar_joinWith nlChar _
      (List.ne_nil_of_length_pos (by rw [List.length_replicate]; norm_num))
      hnosep
  have hlen : (splitOnChar nlChar C).length > 1000 := by
    rw [hsplit, List.length_replicate]
    norm_num
  have hrel : relNameOf (jstr ("repo-main/f.md")) = jstr ("f.md") := by decide
  have hadmE : admitEntry (fun _ _ => false) none
      ⟨jstr ("repo-main/f.md"), true, 2001, some C⟩
      = some (jstr ("f.md"), C) := by
    rw [show some (jstr ("f.md"), C)
        = some (relNameOf (jstr ("repo-main/f.md")), C) by rw [hrel]]
    exact admitEntry_some _ _ _ rfl (by norm_num) rfl (Or.inl rfl)
  have hadm : admittedFiles (fun _ _ => false) none
      [⟨jstr ("repo-main/f.md"), true, 2001, some C⟩]
      = [(jstr ("f.md"), C)] := by
    simp [admittedFiles, List.filterMap_cons, hadmE]
  have htab : populateTable [] (fun _ _ => false) none
      [⟨jstr ("repo-main/f.md"), true, 2001, some C⟩]
      = [(jstr ("f.md"), C)] := by
    rw [populateTable_eq _ _ _ _ (by rw [hadm]; simp), hadm]
  rw [RepoCache_getFile, htab] at hEq
  have hrow : findRowContent [(jstr ("f.md"), C)] (jstr ("f.md")) = some C := by
    simp [findRowContent]
  rw [hrow, Option.map_some', Option.some_inj] at hEq
  -- hEq : formatFileWithLines C false none none MAX_FILE_LINES = C
  rw [show MAX_FILE_LINES = 1000 from rfl] at hEq
  have hparts := formatFile_trunc C hlen
  rw [hsplit] at hparts
  have htake : (List.replicate 1001 (jstr ("a"))).take 1000
      = List.replicate 1000 (jstr ("a")) := by
    rw [List.take_replicate]
    norm_num
  rw [htake, show List.replicate 1000 (jstr ("a"))
      = jstr ("a") :: List.replicate 999 (jstr ("a")) by
        rw [show (1000 : Nat) = 999 + 1 by norm_num, List.replicate_succ],
    List.enum_cons, List.map_cons, List.cons_append] at hparts
  have hheadS : (formatFileWithLines C false none none 1000).head?
      = some spaceChar := by
    rw [formatFileWithLines, hparts, joinWith_head _ _ _ (by decide)]
    decide
  have hheadC : C.head? = some (Char.ofNat 97) := by
    rw [hC, show (1001 : Nat) = 1000 + 1 by norm_num, List.replicate_succ,
      joinWith_head _ _ _ (by decide)]
    decide
  rw [hEq] at hheadS
  rw [hheadS] at hheadC
  exact absurd hheadC (by decide)

/-- Claim C7 (amended): a getFile read with neither start nor end
returns at most 1000 lines of file content — verbatim when the file has
at most 1000 lines, else the first 1000 lines, numbered and followed by
the `[File truncated: N more lines]` marker with N the number of
remaining lines; a LINE-NUMBERED read to the end of the file ends with
the `end of file` marker (a plain read without options carries no
marker, see the counterexample); and in every numbered block each line
number is padded to the single width of the block's largest line
number. -/
theorem C7_limits_and_markers (content : JStr) :
    ((splitOnChar nlChar content).length ≤ 1000 →
      formatFileWithLines content false none none 1000 = content) ∧
    ((splitOnChar nlChar content).length > 1000 →
      formatFileParts content false none none 1000 =
        ((splitOnChar nlChar content).take 1000).enum.map (fun p =>
          padStart (intRepr (1 + (p.1 : Int))) 4 spaceChar ++ jstr ("  ")
            ++ p.2) ++
        [truncMsg (((splitOnChar nlChar content).length : Int) - 1000)]) ∧
    ((splitOnChar nlChar content).length ≤ 1000 →
      formatFileParts content true none none 1000 =
        (splitOnChar nlChar content).enum.map (fun p =>
          padStart (intRepr (1 + (p.1 : Int)))
            (intRepr (((splitOnChar nlChar content).length : Nat) : Int)).length
            spaceChar ++ jstr ("  ") ++ p.2) ++
        [jstr ("end of file")]) ∧
    (∀ k : Nat, k < (splitOnChar nlChar content).length →
      (padStart (intRepr (1 + (k : Int)))
          (intRepr (((splitOnChar nlChar content).length : Nat) : Int)).length
          spaceChar).length
        = (intRepr (((splitOnChar nlChar content).length : Nat) : Int)).length) ∧
    (∀ k : Nat, k < 1000 →
      (padStart (intRepr (1 + (k : Int))) 4 spaceChar).length = 4) :=
  ⟨formatFile_raw_id content, formatFile_trunc content,
   formatFile_numbered_full content,
   fun _ hk => numbered_width_exact hk,
   fun _ hk => by
     have h4 : (4 : Nat) = (intRepr ((1000 : Nat) : Int)).length := by decide
     rw [h4]
     exact numbered_width_exact hk⟩

theorem C7_limits_and_markers_witness :
    (formatFileWithLines (jstr ("a\nb")) false none none 1000 = jstr ("a\nb")) ∧
    (formatFileParts (joinWith nlChar (List.replicate 1001 (jstr ("a"))))
        false none none 1000 =
      ((splitOnChar nlChar
          (joinWith nlChar (List.replicate 1001 (jstr ("a"))))).take 1000).enum.map
        (fun p => padStart (intRepr (1 + (p.1 : Int))) 4 spaceChar ++
          jstr ("  ") ++ p.2) ++
      [truncMsg (((splitOnChar nlChar
        (joinWith nlChar (List.replicate 1001 (jstr ("a"))))).length : Int)
          - 1000)]) ∧
    (formatFileParts (jstr ("a\nb")) true none none 1000 =
      (splitOnChar nlChar (jstr ("a\nb"))).enum.map (fun p =>
        padStart (intRepr (1 + (p.1 : Int)))
          (intRepr (((splitOnChar nlChar (jstr ("a\nb"))).length : Nat) : Int)).length
          spaceChar ++ jstr ("  ") ++ p.2) ++ [jstr ("end of file")]) ∧
    ((padStart (intRepr (1 + ((1 : Nat) : Int)))
        (intRepr (((splitOnChar nlChar (jstr ("a\nb"))).length : Nat) : Int)).length
        spaceChar).length
      = (intRepr (((splitOnChar nlChar (jstr ("a\nb"))).length : Nat) : Int)).length) ∧
    ((padStart (intRepr (1 + ((7 : Nat) : Int))) 4 spaceChar).length = 4) :=
  ⟨(C7_limits_and_markers (jstr ("a\nb"))).1 (by decide),
   (C7_limits_and_markers (joinWith nlChar (List.replicate 1001 (jstr ("a"))))).2.1
     (by
       rw [splitOnChar_joinWith nlChar _
           (List.ne_nil_of_length_pos (by rw [List.length_replicate]; norm_num))
           (fun p hp => by rw [List.eq_of_mem_replicate hp]; decide),
         List.length_replicate]
       norm_num),
   (C7_limits_and_markers (jstr ("a\nb"))).2.2.1 (by decide),
   (C7_limits_and_markers (jstr ("a\nb"))).2.2.2.1 1 (by decide),
   (C7_limits_and_markers (jstr ("a\nb"))).2.2.2.2 7 (by decide)⟩

/-- Claim C7, counterexample: a plain read with no options of a 2-line
file reaches the end of the file yet returns the raw content with NO
`end of file` marker anywhere in the output — the marker is only
appended on line-numbered (or windowed) reads. -/
theorem C7_counterexample :
    formatFileWithLines (jstr ("a\nb")) false none none 1000 = jstr ("a\nb") ∧
    jsIndexOf (formatFileWithLines (jstr ("a\nb")) false none none 1000)
      (jstr ("end of file")) = -1 := by
  decide
